import Mathlib

/-!
Verification of the post-match decision layer of the `fd` filesystem search
tool: predicate filters (size, time, extended attributes) and the action
execution engine (command templates, batching), together with the
configuration accessors in `cli.rs`.

Strings from the Rust side are modelled as `List Char`; byte values of
extended attributes are compared byte-for-byte, which for the splitting
behaviour modelled here coincides with character-level splitting because the
separator `=` is ASCII.
-/

/- ### XAttr filter, from `src/filter/xattr.rs` -/

/-- `XAttrFilter` from `src/filter/xattr.rs`: either a presence test
`Has name` or an exact byte-value match `Matches name value`. -/
inductive XAttrFilter where
  | Has (name : List Char)
  | Matches (name : List Char) (value : List Char)
deriving DecidableEq, Repr

/-- Rust's `str::split_once("=")`: splits at the first occurrence of `=`,
returning the parts before and after it, or `none` when `=` is absent. -/
def splitOnceEq : List Char → Option (List Char × List Char)
  | [] => none
  | c :: cs =>
    if c = '=' then some ([], cs)
    else
      match splitOnceEq cs with
      | none => none
      | some (pre, post) => some (c :: pre, post)

/-- `XAttrFilter::from_string` from `src/filter/xattr.rs`: split on the first
`=`; a hit yields `Matches`, otherwise `Has`.  The Rust function returns
`anyhow::Result` but only ever the `Ok` constructor. -/
def XAttrFilter.from_string (input : List Char) : Except String XAttrFilter :=
  match splitOnceEq input with
  | some v => .ok (.Matches v.1 v.2)
  | none => .ok (.Has input)

theorem splitOnceEq_of_not_mem {s : List Char} (h : '=' ∉ s) :
    splitOnceEq s = none := by
  induction s with
  | nil => rfl
  | cons c cs ih =>
    have hc : c ≠ '=' := fun hc => h (hc ▸ List.mem_cons_self c cs)
    have hcs : '=' ∉ cs := fun hm => h (List.mem_cons_of_mem c hm)
    simp [splitOnceEq, hc, ih hcs]

theorem splitOnceEq_append {pre : List Char} (post : List Char)
    (h : '=' ∉ pre) : splitOnceEq (pre ++ '=' :: post) = some (pre, post) := by
  induction pre with
  | nil => simp [splitOnceEq]
  | cons c cs ih =>
    have hc : c ≠ '=' := fun hc => h (hc ▸ List.mem_cons_self c cs)
    have hcs : '=' ∉ cs := fun hm => h (List.mem_cons_of_mem c hm)
    simp [splitOnceEq, hc, ih hcs]

/-- C1: `XAttrFilter::from_string` splits on the first `=` only: with at
least one `=` present it returns `Matches` of the text before the first `=`
and the raw bytes after it (so `"a=b=c"` yields `Matches "a" "b=c"`); with no
`=` present it returns `Has` of the whole input. -/
theorem xattr_from_string_splits_on_first_eq :
    (∀ pre post : List Char, '=' ∉ pre →
      XAttrFilter.from_string (pre ++ '=' :: post) =
        .ok (.Matches pre post)) ∧
    (∀ s : List Char, '=' ∉ s →
      XAttrFilter.from_string s = .ok (.Has s)) ∧
    XAttrFilter.from_string "a=b=c".data =
      .ok (.Matches "a".data "b=c".data) := by
  refine ⟨fun pre post h => ?_, fun s h => ?_, rfl⟩
  · simp [XAttrFilter.from_string, splitOnceEq_append post h]
  · simp [XAttrFilter.from_string, splitOnceEq_of_not_mem h]

/-- Witness for the hypotheses of `xattr_from_string_splits_on_first_eq`,
instantiated at the input `"x=y"`. -/
theorem xattr_from_string_splits_on_first_eq_witness :
    XAttrFilter.from_string ("x".data ++ '=' :: "y".data) =
      .ok (.Matches "x".data "y".data) :=
  xattr_from_string_splits_on_first_eq.1 "x".data "y".data (by decide)

/-- C8: `XAttrFilter::from_string` is total — every input, including the
empty string and strings beginning with `=`, yields `Ok`; the empty string
gives `Has ""` and `"=v"` gives `Matches "" "v"`. -/
theorem xattr_from_string_total :
    (∀ input : List Char, ∃ f, XAttrFilter.from_string input = .ok f) ∧
    XAttrFilter.from_string [] = .ok (.Has []) ∧
    XAttrFilter.from_string ('=' :: "v".data) =
      .ok (.Matches [] "v".data) := by
  refine ⟨fun input => ?_, rfl, rfl⟩
  unfold XAttrFilter.from_string
  cases splitOnceEq input <;> exact ⟨_, rfl⟩

/- ### Configuration accessors, from `src/cli.rs` -/

/-- The fields of the `Opts` configuration struct from `src/cli.rs` that the
accessors below read.  `threads_arg`, `max_results_arg` model the raw
`threads` / `max_results` option fields; `max_one_result` the `-1` flag;
`path` and `search_path` the positional and `--search-path` arguments;
`absolute_path` the `-a` flag. -/
structure Opts where
  threads_arg : Option Nat
  max_results_arg : Option Nat
  max_one_result : Bool
  path : List String
  search_path : List String
  absolute_path : Bool

/-- `Opts::threads` from `src/cli.rs`:
`std::cmp::max(self.threads.unwrap_or_else(num_cpus::get), 1)`.  The external
call `num_cpus::get` is passed in as the value `num_cpus`. -/
def Opts.threads (o : Opts) (num_cpus : Nat) : Nat :=
  max (o.threads_arg.getD num_cpus) 1

/-- `Opts::max_results` from `src/cli.rs`:
`self.max_results.filter(|&m| m > 0).or_else(|| self.max_one_result.then(|| 1))`. -/
def Opts.max_results (o : Opts) : Option Nat :=
  (o.max_results_arg.filter (fun m => decide (0 < m))).or
    (if o.max_one_result then some 1 else none)

/-- `Opts::normalize_path` from `src/cli.rs`: with `--absolute-path` the path
is absolutized via the external `filesystem::absolute_path` (modelled by the
oracle `absolutize`), otherwise returned unchanged. -/
def Opts.normalize_path (o : Opts) (absolutize : String → String)
    (p : String) : String :=
  if o.absolute_path then absolutize p else p

/-- `ensure_current_directory_exists` from `src/cli.rs`.  The external
`filesystem::is_existing_directory` is modelled by the oracle `is_dir`. -/
def ensure_current_directory_exists (is_dir : String → Bool) :
    Except String Unit :=
  if is_dir "." then .ok ()
  else .error "Could not retrieve current directory (has it been deleted?)."

/-- `Opts::search_paths` from `src/cli.rs`: prefer the positional `path`
list, else `search_path`, else the current directory (after checking it
exists); paths that are not existing directories are dropped (the Rust code
also prints an error message for each, a side effect outside this model). -/
def Opts.search_paths (o : Opts) (is_dir : String → Bool)
    (absolutize : String → String) : Except String (List String) :=
  if !o.path.isEmpty then
    .ok (o.path.filterMap fun p =>
      if is_dir p then some (o.normalize_path absolutize p) else none)
  else if !o.search_path.isEmpty then
    .ok (o.search_path.filterMap fun p =>
      if is_dir p then some (o.normalize_path absolutize p) else none)
  else
    match ensure_current_directory_exists is_dir with
    | .ok _ => .ok [o.normalize_path absolutize "."]
    | .error e => .error e

/-- C6: the effective worker-pool thread count is at least 1; it is the
user-configured count when given, else the number of available CPU cores, in
both cases clamped below at 1. -/
theorem threads_at_least_one :
    ∀ (o : Opts) (num_cpus : Nat),
      1 ≤ o.threads num_cpus ∧
      (∀ t, o.threads_arg = some t → o.threads num_cpus = max t 1) ∧
      (o.threads_arg = none → o.threads num_cpus = max num_cpus 1) := by
  intro o num_cpus
  refine ⟨le_max_right _ 1, fun t ht => ?_, fun h => ?_⟩
  · simp [Opts.threads, ht]
  · simp [Opts.threads, h]

/-- Witness for the hypotheses of `threads_at_least_one`, instantiated at a
configuration with 4 configured threads and one with none (8 CPUs). -/
theorem threads_at_least_one_witness :
    Opts.threads ⟨some 4, none, false, [], [], false⟩ 8 = 4 ∧
    Opts.threads ⟨none, none, false, [], [], false⟩ 8 = 8 := by
  constructor
  · have h := (threads_at_least_one ⟨some 4, none, false, [], [], false⟩ 8).2.1
      4 rfl
    simpa using h
  · have h := (threads_at_least_one ⟨none, none, false, [], [], false⟩ 8).2.2
      rfl
    simpa using h

/-- C10: `Opts::max_results` treats an explicit `--max-results` value of 0 as
no limit: it is `some n` exactly when `--max-results` was given with `n > 0`,
otherwise `some 1` when the `-1` flag is set, otherwise `none`. -/
theorem max_results_zero_means_no_limit :
    ∀ o : Opts,
      (∀ n, o.max_results_arg = some n → 0 < n → o.max_results = some n) ∧
      ((o.max_results_arg = none ∨ o.max_results_arg = some 0) →
        o.max_one_result = true → o.max_results = some 1) ∧
      ((o.max_results_arg = none ∨ o.max_results_arg = some 0) →
        o.max_one_result = false → o.max_results = none) := by
  intro o
  refine ⟨fun n hn hpos => ?_, fun h h1 => ?_, fun h h1 => ?_⟩
  · simp [Opts.max_results, hn, Option.filter, hpos, Option.or]
  · rcases h with h | h <;> simp [Opts.max_results, h, Option.filter, h1]
  · rcases h with h | h <;> simp [Opts.max_results, h, Option.filter, h1]

/-- Witness for the hypotheses of `max_results_zero_means_no_limit`:
`--max-results 5` yields `some 5`; `--max-results 0` with `-1` yields
`some 1`; `--max-results 0` alone yields `none`. -/
theorem max_results_zero_means_no_limit_witness :
    Opts.max_results ⟨none, some 5, false, [], [], false⟩ = some 5 ∧
    Opts.max_results ⟨none, some 0, true, [], [], false⟩ = some 1 ∧
    Opts.max_results ⟨none, some 0, false, [], [], false⟩ = none :=
  ⟨(max_results_zero_means_no_limit _).1 5 rfl (by decide),
   (max_results_zero_means_no_limit _).2.1 (Or.inr rfl) rfl,
   (max_results_zero_means_no_limit _).2.2 (Or.inr rfl) rfl⟩

/-- C9: `Opts::search_paths` never fails because a supplied search path is
not a directory: with at least one positional or `--search-path` argument it
returns `Ok` of the existing directories among them (possibly the empty
list); only with no path argument at all does it fall back to the current
directory, failing exactly when that does not exist. -/
theorem search_paths_drop_non_directories :
    ∀ (o : Opts) (is_dir : String → Bool) (absolutize : String → String),
      (o.path ≠ [] ∨ o.search_path ≠ [] →
        ∃ l, o.search_paths is_dir absolutize = .ok l) ∧
      (o.path ≠ [] →
        o.search_paths is_dir absolutize =
          .ok (o.path.filterMap fun p =>
            if is_dir p then some (o.normalize_path absolutize p) else none)) ∧
      (o.path = [] → o.search_path ≠ [] →
        o.search_paths is_dir absolutize =
          .ok (o.search_path.filterMap fun p =>
            if is_dir p then some (o.normalize_path absolutize p) else none)) ∧
      (o.path = [] → o.search_path = [] → is_dir "." = true →
        o.search_paths is_dir absolutize =
          .ok [o.normalize_path absolutize "."]) ∧
      (o.path = [] → o.search_path = [] → is_dir "." = false →
        o.search_paths is_dir absolutize =
          .error
            "Could not retrieve current directory (has it been deleted?).") := by
  intro o is_dir absolutize
  have h2 : o.path ≠ [] →
      o.search_paths is_dir absolutize =
        .ok (o.path.filterMap fun p =>
          if is_dir p then some (o.normalize_path absolutize p) else none) :=
    fun hp => by simp [Opts.search_paths, List.isEmpty_iff, hp]
  have h3 : o.path = [] → o.search_path ≠ [] →
      o.search_paths is_dir absolutize =
        .ok (o.search_path.filterMap fun p =>
          if is_dir p then some (o.normalize_path absolutize p) else none) :=
    fun hp hs => by simp [Opts.search_paths, List.isEmpty_iff, hp, hs]
  refine ⟨?_, h2, h3, fun hp hs hd => ?_, fun hp hs hd => ?_⟩
  · rintro (hp | hs)
    · exact ⟨_, h2 hp⟩
    · by_cases hq : o.path = []
      · exact ⟨_, h3 hq hs⟩
      · exact ⟨_, h2 hq⟩
  · simp [Opts.search_paths, ensure_current_directory_exists,
      List.isEmpty_iff, hp, hs, hd]
  · simp [Opts.search_paths, ensure_current_directory_exists,
      List.isEmpty_iff, hp, hs, hd]

/-- Witness for the hypotheses of `search_paths_drop_non_directories`: with
search paths `["a", "b"]` of which only `"b"` is an existing directory, the
result is `Ok ["b"]`; with no path arguments and no current directory, the
result is the error. -/
theorem search_paths_drop_non_directories_witness :
    Opts.search_paths ⟨none, none, false, ["a", "b"], [], false⟩
      (fun p => p == "b") (fun p => p) = .ok ["b"] ∧
    Opts.search_paths ⟨none, none, false, [], [], false⟩
      (fun _ => false) (fun p => p) =
      .error "Could not retrieve current directory (has it been deleted?)." := by
  constructor
  · have h := (search_paths_drop_non_directories
      ⟨none, none, false, ["a", "b"], [], false⟩
      (fun p => p == "b") (fun p => p)).2.1 (by decide)
    rw [h]
    rfl
  · exact (search_paths_drop_non_directories ⟨none, none, false, [], [], false⟩
      (fun _ => false) (fun p => p)).2.2.2.2 rfl rfl rfl

/- ### Exec mode selection, from `src/cli.rs` (`impl FromArgMatches for
Exec` and `Exec::augment_args`) -/

/-- The command mode produced by `Exec::from_arg_matches`: no command, a
per-entry command (`--exec`, `CommandSet::new`), or a batched command
(`--exec-batch`, `CommandSet::new_batch`).  The grouped occurrence values of
the clap argument are kept abstract as `List (List String)`. -/
inductive ExecMode where
  | none
  | perEntry (cmds : List (List String))
  | batched (cmds : List (List String))
deriving DecidableEq, Repr

/-- `Exec::from_arg_matches` from `src/cli.rs`: take the grouped values of
`exec` if present, else those of `exec-batch`, else no command.
`exec_args` / `batch_args` model `matches.grouped_values_of("exec")` and
`matches.grouped_values_of("exec-batch")`. -/
def exec_from_arg_matches (exec_args batch_args : Option (List (List String))) :
    ExecMode :=
  match exec_args with
  | some v => .perEntry v
  | Option.none =>
    match batch_args with
    | some v => .batched v
    | Option.none => .none

/-- The mutual-exclusion rule declared in `Exec::augment_args`: the
`exec-batch` argument carries `conflicts_with_all(&["exec", ...])`, so clap
rejects any invocation where both `exec` and `exec-batch` occur. -/
def exec_conflicts_ok (exec_args batch_args : Option (List (List String))) :
    Bool :=
  !(exec_args.isSome && batch_args.isSome)

/-- C7: supplying both `--exec` and `--exec-batch` is rejected by the
declared conflict rule; every accepted configuration yields exactly one of:
no command, per-entry command (when `--exec` was given), or batched command
(when `--exec-batch` was given). -/
theorem exec_modes_mutually_exclusive :
    (∀ e b : List (List String),
      exec_conflicts_ok (some e) (some b) = false) ∧
    (∀ exec_args batch_args : Option (List (List String)),
      exec_conflicts_ok exec_args batch_args = true →
      (exec_args = none ∧ batch_args = none ∧
        exec_from_arg_matches exec_args batch_args = .none) ∨
      (∃ v, exec_args = some v ∧ batch_args = none ∧
        exec_from_arg_matches exec_args batch_args = .perEntry v) ∨
      (∃ v, exec_args = none ∧ batch_args = some v ∧
        exec_from_arg_matches exec_args batch_args = .batched v)) := by
  refine ⟨fun e b => rfl, fun exec_args batch_args h => ?_⟩
  match exec_args, batch_args with
  | Option.none, Option.none => exact Or.inl ⟨rfl, rfl, rfl⟩
  | some v, Option.none => exact Or.inr (Or.inl ⟨v, rfl, rfl, rfl⟩)
  | Option.none, some v => exact Or.inr (Or.inr ⟨v, rfl, rfl, rfl⟩)
  | some v, some w => simp [exec_conflicts_ok] at h

/-- Witness for the hypothesis of `exec_modes_mutually_exclusive`,
instantiated at a configuration giving only `--exec echo`. -/
theorem exec_modes_mutually_exclusive_witness :
    exec_conflicts_ok (some [["echo"]]) (some [["ls"]]) = false ∧
    ((some [["echo"]] = (none : Option (List (List String))) ∧
        (none : Option (List (List String))) = none ∧
        exec_from_arg_matches (some [["echo"]]) none = .none) ∨
      (∃ v, some [["echo"]] = some v ∧
        (none : Option (List (List String))) = none ∧
        exec_from_arg_matches (some [["echo"]]) none = .perEntry v) ∨
      (∃ v, some [["echo"]] = (none : Option (List (List String))) ∧
        (none : Option (List (List String))) = some v ∧
        exec_from_arg_matches (some [["echo"]]) none = .batched v)) :=
  ⟨exec_modes_mutually_exclusive.1 [["echo"]] [["ls"]],
   exec_modes_mutually_exclusive.2 (some [["echo"]]) none rfl⟩

/- ### Time filter evaluation -/

/-- The use-site tag for a time filter: `--changed-within` ("newer-than")
versus `--changed-before` ("older-than"). -/
inductive TimeFilterKind where
  | Newer
  | Older
deriving DecidableEq, Repr

/-- Modelled from the spec: the `TimeFilter` of `src/filter/time.rs` is not
present under `src/`; per the spec it holds a single reference instant, and
instants have second resolution, modelled as an integer timestamp. -/
structure TimeFilter where
  reference : Int
deriving DecidableEq, Repr

/-- Modelled from the spec: `TimeFilter` evaluation (`src/filter/time.rs` is
not present under `src/`): for "newer-than", true iff the entry's mtime is
`>=` the reference; for "older-than", true iff it is `<=` the reference. -/
def TimeFilter.evaluate (f : TimeFilter) (mtime : Int)
    (kind : TimeFilterKind) : Bool :=
  match kind with
  | .Newer => decide (f.reference ≤ mtime)
  | .Older => decide (mtime ≤ f.reference)

/-- C5: for every entry mtime and reference instant, "newer-than" evaluation
holds iff `mtime >= reference` and "older-than" evaluation holds iff
`mtime <= reference`; an mtime exactly equal to the reference satisfies
both kinds. -/
theorem time_filter_boundary_inclusive :
    ∀ (f : TimeFilter) (mtime : Int),
      (f.evaluate mtime .Newer = true ↔ f.reference ≤ mtime) ∧
      (f.evaluate mtime .Older = true ↔ mtime ≤ f.reference) ∧
      (mtime = f.reference →
        f.evaluate mtime .Newer = true ∧ f.evaluate mtime .Older = true) := by
  intro f mtime
  refine ⟨by simp [TimeFilter.evaluate], by simp [TimeFilter.evaluate],
    fun h => ?_⟩
  simp [TimeFilter.evaluate, h]

/-- Witness for the hypothesis of `time_filter_boundary_inclusive`: at
reference instant 100 an entry with mtime 100 satisfies both kinds. -/
theorem time_filter_boundary_inclusive_witness :
    TimeFilter.evaluate ⟨100⟩ 100 .Newer = true ∧
    TimeFilter.evaluate ⟨100⟩ 100 .Older = true :=
  (time_filter_boundary_inclusive ⟨100⟩ 100).2.2 rfl

/- ### Batched dispatch of the action engine -/

/-- Modelled from the spec: the batched-mode dispatch loop of the action
engine (the `exec` module is not present under `src/`).  The engine
accumulates matched paths into the current batch `acc`; when the batch
reaches `batch_size` it is dispatched (emitted) and cleared; at end of
stream a non-empty remainder batch is dispatched.  With `batch_size = 0`
the length test never fires after an accumulation, so everything flushes
only at end of stream. -/
def collect_batches (batch_size : Nat) :
    List String → List String → List (List String)
  | [], acc => if acc.isEmpty then [] else [acc]
  | p :: rest, acc =>
    if (acc ++ [p]).length = batch_size then
      (acc ++ [p]) :: collect_batches batch_size rest []
    else
      collect_batches batch_size rest (acc ++ [p])

/-- The sequence of batches dispatched for a match stream, in dispatch
order, starting from an empty current batch. -/
def batches (batch_size : Nat) (stream : List String) : List (List String) :=
  collect_batches batch_size stream []

theorem collect_batches_flatten (b : Nat) :
    ∀ (s acc : List String), (collect_batches b s acc).flatten = acc ++ s := by
  intro s
  induction s with
  | nil =>
    intro acc
    by_cases h : acc.isEmpty
    · simp [collect_batches, h, List.isEmpty_iff.mp h]
    · simp [collect_batches, h]
  | cons p rest ih =>
    intro acc
    by_cases h : (acc ++ [p]).length = b
    · rw [collect_batches, if_pos h]
      simp [ih]
    · rw [collect_batches, if_neg h]
      simp [ih]

theorem collect_batches_ne_nil (b : Nat) :
    ∀ (s acc : List String), ∀ l ∈ collect_batches b s acc, l ≠ [] := by
  intro s
  induction s with
  | nil =>
    intro acc l hl
    by_cases h : acc.isEmpty
    · simp [collect_batches, h] at hl
    · simp [collect_batches, h] at hl
      simpa [hl] using h
  | cons p rest ih =>
    intro acc l hl
    by_cases h : (acc ++ [p]).length = b
    · rw [collect_batches, if_pos h] at hl
      rcases List.mem_cons.mp hl with hl | hl
      · simp [hl]
      · exact ih [] l hl
    · rw [collect_batches, if_neg h] at hl
      exact ih (acc ++ [p]) l hl

theorem collect_batches_full (b : Nat) (hb : 0 < b) :
    ∀ (s acc : List String), acc.length < b →
      ∀ l ∈ (collect_batches b s acc).dropLast, l.length = b := by
  intro s
  induction s with
  | nil =>
    intro acc _ l hl
    by_cases h : acc.isEmpty
    · simp [collect_batches, h] at hl
    · simp [collect_batches, h] at hl
  | cons p rest ih =>
    intro acc hacc l hl
    by_cases h : (acc ++ [p]).length = b
    · rw [collect_batches, if_pos h] at hl
      rcases hr : collect_batches b rest [] with _ | ⟨x, xs⟩
      · rw [hr] at hl
        simp at hl
      · rw [hr, List.dropLast_cons₂] at hl
        rcases List.mem_cons.mp hl with hl | hl
        · rw [hl]
          exact h
        · refine ih [] (by simpa using hb) l ?_
          rw [hr]
          exact hl
    · rw [collect_batches, if_neg h] at hl
      have hlen : (acc ++ [p]).length < b := by
        have h1 : (acc ++ [p]).length = acc.length + 1 := by simp
        omega
      exact ih (acc ++ [p]) hlen l hl

/-- C2: with `batch_size = 2` a stream of five matches produces exactly the
three batches `[p1,p2]`, `[p3,p4]`, `[p5]` in that order; in general, for
every positive batch size every dispatched batch except possibly the last
has exactly `batch_size` paths, every batch is non-empty, and the batches
concatenated in dispatch order reproduce the match stream in discovery
order. -/
theorem batching_chunks_in_order :
    (∀ p1 p2 p3 p4 p5 : String,
      batches 2 [p1, p2, p3, p4, p5] = [[p1, p2], [p3, p4], [p5]]) ∧
    (∀ (b : Nat) (s : List String), 0 < b →
      (∀ l ∈ (batches b s).dropLast, l.length = b) ∧
      (∀ l ∈ batches b s, l ≠ []) ∧
      (batches b s).flatten = s) := by
  refine ⟨fun p1 p2 p3 p4 p5 => rfl, fun b s hb => ?_⟩
  exact ⟨collect_batches_full b hb s [] (by simpa using hb),
    collect_batches_ne_nil b s [],
    by simpa using collect_batches_flatten b s []⟩

/-- Witness for the hypothesis of `batching_chunks_in_order`: batch size 3
over a stream of five paths gives batches of sizes 3 and 2 whose
concatenation restores the stream. -/
theorem batching_chunks_in_order_witness :
    (∀ l ∈ (batches 3 ["a", "b", "c", "d", "e"]).dropLast, l.length = 3) ∧
    (∀ l ∈ batches 3 ["a", "b", "c", "d", "e"], l ≠ []) ∧
    (batches 3 ["a", "b", "c", "d", "e"]).flatten = ["a", "b", "c", "d", "e"] :=
  batching_chunks_in_order.2 3 ["a", "b", "c", "d", "e"] (by decide)

/- ### Placeholder template -/

/-- The five placeholder kinds of the command template (spec §4.6; also
listed in the `--exec` help text of `src/cli.rs`). -/
inductive Placeholder where
  | FullPath
  | Basename
  | ParentDir
  | PathNoExt
  | BasenameNoExt
deriving DecidableEq, Repr

/-- One piece of a parsed template token: literal text or a substitution
point. -/
inductive Segment where
  | Text (s : List Char)
  | Ph (p : Placeholder)
deriving DecidableEq, Repr

/-- Modelled from the spec: the template token scanner of the `exec` module
(not present under `src/`).  Each literal substring occurrence of one of the
five placeholders embedded anywhere inside a token is recorded as a
substitution point; all other characters are literal text. -/
def scan_token : List Char → List Segment
  | [] => []
  | '{' :: '}' :: rest => .Ph .FullPath :: scan_token rest
  | '{' :: '/' :: '}' :: rest => .Ph .Basename :: scan_token rest
  | '{' :: '/' :: '/' :: '}' :: rest => .Ph .ParentDir :: scan_token rest
  | '{' :: '.' :: '}' :: rest => .Ph .PathNoExt :: scan_token rest
  | '{' :: '/' :: '.' :: '}' :: rest => .Ph .BasenameNoExt :: scan_token rest
  | c :: cs => .Text [c] :: scan_token cs

/-- Modelled from the spec: `compile(raw_tokens)` parses every raw argument
word into a token of literal text and substitution points; nothing is added
to the stored template at parse time. -/
def compile (raw : List (List Char)) : List (List Segment) :=
  raw.map scan_token

def Segment.isPh : Segment → Bool
  | .Text _ => false
  | .Ph _ => true

/-- Whether a parsed token contains at least one substitution point. -/
def token_has_placeholder (t : List Segment) : Bool :=
  t.any Segment.isPh

/-- Whether any token of the stored template contains a substitution
point. -/
def has_placeholder (tmpl : List (List Segment)) : Bool :=
  tmpl.any token_has_placeholder

/-- Final path component: the text after the last `/`. -/
def basename (p : List Char) : List Char :=
  (p.reverse.takeWhile fun c => c ≠ '/').reverse

/-- Path with the final component removed, or `.` when there is none. -/
def parent_dir (p : List Char) : List Char :=
  match p.reverse.dropWhile fun c => c ≠ '/' with
  | [] => ['.']
  | _ :: t => t.reverse

/-- Path with a trailing `.ext` extension removed (unchanged when the final
component has no dot). -/
def remove_extension (p : List Char) : List Char :=
  let e := (basename p).reverse.takeWhile fun c => c ≠ '.'
  if e.length = (basename p).length then p
  else p.take (p.length - e.length - 1)

/-- Modelled from the spec: the per-entry substitution functions of the five
placeholders. -/
def Placeholder.apply : Placeholder → List Char → List Char
  | .FullPath, p => p
  | .Basename, p => basename p
  | .ParentDir, p => parent_dir p
  | .PathNoExt, p => remove_extension p
  | .BasenameNoExt, p => remove_extension (basename p)

def Segment.subst (path : List Char) : Segment → List Char
  | .Text s => s
  | .Ph ph => ph.apply path

/-- Instantiating one parsed token against a path: substitute every
substitution point and concatenate. -/
def instantiate_token (t : List Segment) (path : List Char) : List Char :=
  (t.map (Segment.subst path)).flatten

/-- Modelled from the spec: per-entry instantiation of the stored template.
When no token contains a placeholder, the implicit `FullPath` argument is
appended here, at substitution time. -/
def generate (tmpl : List (List Segment)) (path : List Char) :
    List (List Char) :=
  if has_placeholder tmpl then tmpl.map fun t => instantiate_token t path
  else (tmpl.map fun t => instantiate_token t path) ++ [path]

theorem instantiate_scan_of_no_ph (path : List Char) :
    ∀ t : List Char, token_has_placeholder (scan_token t) = false →
      instantiate_token (scan_token t) path = t := by
  intro t
  induction t using scan_token.induct <;>
    simp_all [scan_token, token_has_placeholder, Segment.isPh,
      instantiate_token, Segment.subst]

theorem generate_map_of_no_ph (path : List Char) :
    ∀ raw : List (List Char), has_placeholder (compile raw) = false →
      (compile raw).map (fun t => instantiate_token t path) = raw := by
  intro raw h
  induction raw with
  | nil => rfl
  | cons t rest ih =>
    have h1 : token_has_placeholder (scan_token t) = false := by
      by_contra hc
      simp [has_placeholder, compile, Bool.not_eq_false] at h hc
      exact absurd hc (by simpa using h.1)
    have h2 : has_placeholder (compile rest) = false := by
      simp [has_placeholder, compile] at h ⊢
      exact h.2
    simp [compile, instantiate_scan_of_no_ph path t h1]
    simpa [compile] using ih h2

/-- C3: for a template whose raw tokens contain no placeholder occurrence,
instantiation against a path yields the literal tokens followed by one extra
final argument equal to the full path; the extra token is appended at
substitution time and never stored in the parsed template, which keeps the
stored template distinguishable from one explicitly ending in `{}`. -/
theorem template_implicit_trailing_placeholder :
    ∀ (raw : List (List Char)) (path : List Char),
      has_placeholder (compile raw) = false →
      generate (compile raw) path = raw ++ [path] ∧
      (compile raw).length = raw.length ∧
      compile raw ≠ compile (raw ++ [['{', '}']]) ∧
      has_placeholder (compile (raw ++ [['{', '}']])) = true := by
  intro raw path h
  refine ⟨?_, by simp [compile], fun hc => ?_, ?_⟩
  · rw [generate, if_neg (by simp [h]), generate_map_of_no_ph path raw h]
  · have := congrArg List.length hc
    simp [compile] at this
  · simp [has_placeholder, compile, scan_token, token_has_placeholder,
      Segment.isPh]

/-- Witness for the hypothesis of `template_implicit_trailing_placeholder`:
the raw template `["echo"]` has no placeholder, and instantiating it against
the path `"p"` appends the path as the final argument. -/
theorem template_implicit_trailing_placeholder_witness :
    generate (compile ["echo".data]) "p".data =
      ["echo".data, "p".data] ∧
    (compile ["echo".data]).length = 1 ∧
    compile ["echo".data] ≠ compile (["echo".data] ++ [['{', '}']]) ∧
    has_placeholder (compile (["echo".data] ++ [['{', '}']])) = true :=
  template_implicit_trailing_placeholder ["echo".data] "p".data rfl

/- ### Unit parser for size quantities -/

/-- The maximum representable unsigned 64-bit byte count. -/
def U64_MAX : Nat := 2 ^ 64 - 1

/-- The failure modes of the size-quantity parser (spec §4.1). -/
inductive SizeParseError where
  | InvalidNumber
  | InvalidUnit
  | Overflow
deriving DecidableEq, Repr

/-- Modelled from the spec: the unit-suffix table of the unit parser
(`src/filter/size.rs` is not present under `src/`): no suffix or `b` means
bytes; `k`, `m`, `g`, `t` scale by powers of 1000; `ki`, `mi`, `gi`, `ti` by
powers of 1024.  The argument is the already-lowercased suffix. -/
def unit_scale : List Char → Option Nat
  | [] => some 1
  | ['b'] => some 1
  | ['k'] => some 1000
  | ['m'] => some 1000000
  | ['g'] => some 1000000000
  | ['t'] => some 1000000000000
  | ['k', 'i'] => some 1024
  | ['m', 'i'] => some 1048576
  | ['g', 'i'] => some 1073741824
  | ['t', 'i'] => some 1099511627776
  | _ => none

/-- The numeric value of a string of decimal digits. -/
def digits_to_nat (ds : List Char) : Nat :=
  ds.foldl (fun a c => a * 10 + (c.toNat - 48)) 0

/-- Modelled from the spec: the unit parser `parse(text) -> ByteCount`
(`src/filter/size.rs` is not present under `src/`).  Grammar: a non-negative
numeric mantissa (integer or decimal), then an optional case-insensitive
unit suffix.  A non-numeric mantissa fails with `InvalidNumber`, an
unrecognized suffix with `InvalidUnit`, and a scaled result exceeding the
maximum unsigned 64-bit byte count with `Overflow` rather than wrapping. -/
def parse_size (input : List Char) : Except SizeParseError Nat :=
  let ipart := input.takeWhile Char.isDigit
  let rest := input.dropWhile Char.isDigit
  if ipart.isEmpty then .error .InvalidNumber
  else if rest.head? = some '.' then
    let fpart := rest.tail.takeWhile Char.isDigit
    let suffix := rest.tail.dropWhile Char.isDigit
    if fpart.isEmpty then .error .InvalidNumber
    else
      match unit_scale (suffix.map Char.toLower) with
      | none => .error .InvalidUnit
      | some scale =>
        let v := digits_to_nat (ipart ++ fpart) * scale / 10 ^ fpart.length
        if v ≤ U64_MAX then .ok v else .error .Overflow
  else
    match unit_scale (rest.map Char.toLower) with
    | none => .error .InvalidUnit
    | some scale =>
      let v := digits_to_nat ipart * scale
      if v ≤ U64_MAX then .ok v else .error .Overflow

theorem takeWhile_dropWhile_append {p : Char → Bool} :
    ∀ ds suffix : List Char, (∀ c ∈ ds, p c = true) →
      (∀ c ∈ suffix, p c = false) →
      (ds ++ suffix).takeWhile p = ds ∧ (ds ++ suffix).dropWhile p = suffix := by
  intro ds
  induction ds with
  | nil =>
    intro suffix _ hs
    rcases suffix with _ | ⟨c, cs⟩
    · exact ⟨rfl, rfl⟩
    · have hc := hs c (List.mem_cons_self c cs)
      simp [List.takeWhile_cons, List.dropWhile_cons, hc]
  | cons d ds ih =>
    intro suffix hd hs
    have hdd := hd d (List.mem_cons_self d ds)
    have hrest : ∀ c ∈ ds, p c = true :=
      fun c hc => hd c (List.mem_cons_of_mem d hc)
    obtain ⟨h1, h2⟩ := ih suffix hrest hs
    simp [List.takeWhile_cons, List.dropWhile_cons, hdd, h1, h2]

/-- C4: the unit parser scales the mantissa by its suffix — for every digit
string and recognized suffix the result is the mantissa times the suffix
scale, with an `Overflow` error instead of wraparound when it exceeds the
64-bit maximum; `"10k"` and `"10K"` give 10000, `"1Gi"` gives 1073741824,
`"0b"` gives 0, `"2.5k"` gives 2500; an unrecognized suffix fails with
`InvalidUnit` and a non-numeric mantissa, including the empty string, fails
with `InvalidNumber`. -/
theorem parse_size_scales_by_suffix :
    (∀ (ds suffix : List Char) (scale : Nat),
      ds ≠ [] → (∀ c ∈ ds, c.isDigit = true) →
      (∀ c ∈ suffix, c.isDigit = false ∧ c ≠ '.') →
      unit_scale (suffix.map Char.toLower) = some scale →
      parse_size (ds ++ suffix) =
        if digits_to_nat ds * scale ≤ U64_MAX then
          .ok (digits_to_nat ds * scale)
        else .error .Overflow) ∧
    parse_size "10k".data = .ok 10000 ∧
    parse_size "10K".data = .ok 10000 ∧
    parse_size "1Gi".data = .ok 1073741824 ∧
    parse_size "0b".data = .ok 0 ∧
    parse_size "2.5k".data = .ok 2500 ∧
    parse_size "18446744073709551615".data = .ok U64_MAX ∧
    parse_size "18446744073709551616".data = .error .Overflow ∧
    parse_size "10x".data = .error .InvalidUnit ∧
    parse_size [] = .error .InvalidNumber ∧
    parse_size "abc".data = .error .InvalidNumber := by
  refine ⟨fun ds suffix scale hne hd hs hu => ?_,
    rfl, rfl, rfl, rfl, rfl, rfl, rfl, rfl, rfl, rfl⟩
  obtain ⟨ht, hdp⟩ := takeWhile_dropWhile_append ds suffix hd
    (fun c hc => (hs c hc).1)
  have hie : ds.isEmpty = false := by simp [List.isEmpty_iff, hne]
  have hhead : (suffix.head? = some '.') = False := by
    rcases suffix with _ | ⟨c, cs⟩
    · simp
    · simp [List.head?]
      exact (hs c (List.mem_cons_self c cs)).2
  simp only [parse_size, ht, hdp, hie, Bool.false_eq_true, if_false, hhead,
    if_true, hu]

/-- Witness for the hypotheses of `parse_size_scales_by_suffix`,
instantiated at mantissa `"10"` with suffix `"k"` (scale 1000). -/
theorem parse_size_scales_by_suffix_witness :
    parse_size ("10".data ++ "k".data) =
      if digits_to_nat "10".data * 1000 ≤ U64_MAX then
        .ok (digits_to_nat "10".data * 1000)
      else .error .Overflow :=
  parse_size_scales_by_suffix.1 "10".data "k".data 1000
    (by decide) (by decide) (by decide) rfl
